import Mathlib

/-!
Verification of the `space_visualiser` directory scanner (`src/main.go`, plus the
earlier revision in `src/unnamed/part_000`).

The program is a depth-first directory walk (`getDirSize`) that sums regular-file
sizes bottom-up and prints every entry whose size strictly exceeds a threshold,
with blank-line grouping, skipping directories matched by an exclusion regexp.

Shallow embedding choices:
- The file system snapshot is made explicit: an `FSEntry` is what one `os.ReadDir`
  entry exposes.  A directory entry carries `readable : Bool` (whether `os.ReadDir`
  on it succeeds) and its listing; a file entry carries `info : Option Int`
  (the result of `DirEntry.Info()`: `none` models a failed metadata lookup, in
  which case Go's `Info()` returns a nil `FileInfo` together with the error).
- `int64` sizes are modelled as unbounded `Int` (no claim concerns overflow).
- Stdout is a `List OutLine`; the `log` package's stderr lines are a `List LogEvent`.
- The compiled regexp is modelled as the abstract matcher `String → Bool` it is
  only ever used as (`MatchString`), wrapped in `Option` exactly like the nil-able
  `ignoreRegexp` field.
- A Go panic (nil `FileInfo` dereference at `main.go:102`) is modelled by the
  walk returning `none`; a normal return is `some` of the three returned values
  plus the observed output.
-/

/-- Classification of a directory entry by `entry.Type()`:
`IsRegular()`, `IsDir()`, or neither (symlinks, devices, ...). -/
inductive EKind : Type where
  | fileK
  | dirK
  | otherK
deriving DecidableEq

/-- One line of stdout: either the empty line printed by `fmt.Println()` or an
entry line printed by `fmt.Printf("%v: %v\n", fullPath, humanize.BigBytes(size))`.
The `kind` field records which kind of entry produced the line; it is
instrumentation only and is erased by `renderLine`. -/
inductive OutLine : Type where
  | blank : OutLine
  | entry (kind : EKind) (path : String) (size : Int) : OutLine
deriving DecidableEq

/-- One stderr line produced through the `log` package.  The file-info events
(`main.go:105-106`) are listed for completeness but are unreachable: the nil
dereference at `main.go:102` precedes the `err != nil` check. -/
inductive LogEvent : Type where
  | errReadDir (dir : String)
  | warnSkipDir (dir : String)
  | warnIgnoreDir (path : String)
  | errFileInfo (path : String)
  | warnFileSkip (path : String)
  | errVisualise (dir : String)
deriving DecidableEq

/-- The observable result of one `getDirSize` call: the three returned values
`(int64, int, error)` plus the stdout lines and log lines emitted during the
call.  `err` is the returned `error`; both `return` statements of `getDirSize`
return `nil`, which the lemma `walkLoop_err` makes precise. -/
structure WalkResult : Type where
  size : Int
  printedFiles : Nat
  out : List OutLine
  logs : List LogEvent
  err : Option String
deriving DecidableEq

/-- A snapshot of one directory entry and (recursively) of the subtree below it.
`file name info`: a regular file; `info` is `none` when `DirEntry.Info()` fails.
`dir name readable entries`: a subdirectory; `readable = false` means
`os.ReadDir` on it fails (its `entries` are then unobservable).
`other name`: an entry that is neither a regular file nor a directory. -/
inductive FSEntry : Type where
  | file (name : String) (info : Option Int) : FSEntry
  | dir (name : String) (readable : Bool) (entries : List FSEntry) : FSEntry
  | other (name : String) : FSEntry

/-- The `visualiser` struct of `main.go:37-40`: the parsed threshold and the
optional compiled exclusion regexp, kept abstract as the `MatchString` function
it is used as (`nil` pointer = `none`). -/
structure Visualiser : Type where
  sizeThreshold : Int
  ignoreRegexp : Option (String → Bool)

/-- Embeds `shouldSkipDir` (`main.go:63-65`):
`v.ignoreRegexp != nil && v.ignoreRegexp.MatchString(dir)`. -/
def shouldSkipDir (v : Visualiser) (dir : String) : Bool :=
  match v.ignoreRegexp with
  | none => false
  | some m => m dir

/-- Models `filepath.Join(dir, entry.Name())` for the shapes that occur in the
walk: a cleaned directory path joined with a bare entry name. -/
def joinPath (dir name : String) : String :=
  if dir = "" then name
  else if dir = "/" then "/" ++ name
  else dir ++ "/" ++ name

/-- Outcome of the `switch` in the loop body of `getDirSize` (`main.go:99-133`)
for a single entry.
`crash`: the Go program panics (nil `FileInfo` dereference, `main.go:102`).
`skipped out logs`: a `continue` was executed; `out`/`logs` are what was emitted
before it.
`proceed fullPath entrySize kind out logs setClosing`: control reaches the
threshold check with the given `entrySize`; `setClosing` is whether this entry
set `shouldPrintAClosingNewLine` (`main.go:130-132`). -/
inductive EntryStep : Type where
  | crash
  | skipped (out : List OutLine) (logs : List LogEvent)
  | proceed (fullPath : String) (entrySize : Int) (kind : EKind)
      (out : List OutLine) (logs : List LogEvent) (setClosing : Bool)

mutual

/-- Embeds the `switch` of `getDirSize`'s loop body (`main.go:99-133`) for one
entry.  In the regular-file case the source runs `entrySize = info.Size()`
before checking `err` (`main.go:101-104`), so a failed `Info()` (which yields a
nil `FileInfo`) is a panic, modelled as `crash`; the logging branch at
`main.go:104-109` is consequently dead.  In the directory case the recursive
`getDirSize` call is inlined: the ignore-regexp test (`main.go:112-118`), then
the `os.ReadDir` failure path (`main.go:83-89`, returning size 0, count 0 and a
nil error after logging), then the recursive walk; the `err != nil` check on the
recursive result (`main.go:123-128`) is kept even though `getDirSize` never
returns a non-nil error. -/
def stepEntry (v : Visualiser) (dir : String) : FSEntry → EntryStep
  | .file name info =>
      match info with
      | none => EntryStep.crash
      | some sz => EntryStep.proceed (joinPath dir name) sz EKind.fileK [] [] false
  | .dir name readable entries =>
      let fullPath := joinPath dir name
      if shouldSkipDir v fullPath then
        EntryStep.skipped [] [LogEvent.warnIgnoreDir fullPath]
      else if readable then
        match walkLoop v fullPath entries 0 0 false with
        | none => EntryStep.crash
        | some sub =>
            match sub.err with
            | some _ =>
                EntryStep.skipped sub.out
                  (sub.logs ++ [LogEvent.errReadDir dir, LogEvent.warnSkipDir dir])
            | none =>
                EntryStep.proceed fullPath sub.size EKind.dirK sub.out sub.logs
                  (decide (0 < sub.printedFiles))
      else
        EntryStep.proceed fullPath 0 EKind.dirK []
          [LogEvent.errReadDir fullPath, LogEvent.warnSkipDir fullPath] false
  | .other name => EntryStep.proceed (joinPath dir name) 0 EKind.otherK [] [] false

/-- Embeds the `for` loop of `getDirSize` (`main.go:95-156`) over the remaining
entries, threading the loop state `dirSize`, `filesPrintedInThisDir` (`fp`) and
`shouldPrintAClosingNewLine` (`closing`).  After the step, the threshold block
(`main.go:135-151`) prints an optional leading blank (first regular file at this
level), the entry line, and an optional closing blank (sticky `closing` flag),
and increments the file counter for regular files. -/
def walkLoop (v : Visualiser) (dir : String) :
    List FSEntry → Int → Nat → Bool → Option WalkResult
  | [], dirSize, fp, _ => some ⟨dirSize, fp, [], [], none⟩
  | e :: rest, dirSize, fp, closing =>
      match stepEntry v dir e with
      | .crash => none
      | .skipped sOut sLogs =>
          (walkLoop v dir rest dirSize fp closing).map fun r =>
            { r with out := sOut ++ r.out, logs := sLogs ++ r.logs }
      | .proceed fullPath sz kind sOut sLogs setC =>
          let closing' := closing || setC
          let printedLine : List OutLine :=
            if sz > v.sizeThreshold then
              (if kind = EKind.fileK ∧ fp = 0 then [OutLine.blank] else []) ++
              [OutLine.entry kind fullPath sz] ++
              (if closing' then [OutLine.blank] else [])
            else []
          let fp' := if sz > v.sizeThreshold ∧ kind = EKind.fileK then fp + 1 else fp
          (walkLoop v dir rest (dirSize + sz) fp' closing').map fun r =>
            { r with out := sOut ++ printedLine ++ r.out, logs := sLogs ++ r.logs }

end

/-- Embeds `getDirSize` (`main.go:82-157`) on a directory whose `os.ReadDir`
result is given by `readable`/`entries`: on failure it logs and returns
`(0, 0, nil)` (`main.go:83-89`), otherwise it runs the loop with zeroed state. -/
def getDirSize (v : Visualiser) (dir : String) (readable : Bool)
    (entries : List FSEntry) : Option WalkResult :=
  if readable then walkLoop v dir entries 0 0 false
  else some ⟨0, 0, [], [LogEvent.errReadDir dir, LogEvent.warnSkipDir dir], none⟩

/-- Embeds `visualise` (`main.go:67-78`): run the walk, handle a (never
occurring) returned error, and print the root line plus a trailing blank when
the total strictly exceeds the threshold.  The root line is tagged `dirK`
because it reports a directory total. -/
def visualise (v : Visualiser) (dir : String) (readable : Bool)
    (entries : List FSEntry) : Option (List OutLine × List LogEvent) :=
  match getDirSize v dir readable entries with
  | none => none
  | some r =>
      match r.err with
      | some _ => some (r.out, r.logs ++ [LogEvent.errVisualise dir])
      | none =>
          if r.size > v.sizeThreshold then
            some (r.out ++ [OutLine.entry EKind.dirK dir r.size, OutLine.blank], r.logs)
          else some (r.out, r.logs)

/-- Unit suffixes used by `humanize.BigBytes` (external library
`github.com/dustin/go-humanize`, `bytes.go`): decimal SI byte units. -/
def siSizes : List String := ["B", "kB", "MB", "GB", "TB", "PB", "EB", "ZB", "YB"]

/-- Binary IEC byte units, as named by the spec sentence "binary-byte units
(e.g., 1.2 GiB)" (these are what `humanize.BigIBytes` would use). -/
def iecUnits : List String :=
  ["B", "KiB", "MiB", "GiB", "TiB", "PiB", "EiB", "ZiB", "YiB"]

/-- Auxiliary for stating unit claims: the characters of the last
space-separated token. -/
def lastToken : List Char → List Char → List Char
  | [], acc => acc
  | c :: rest, acc => if c = ' ' then lastToken rest [] else lastToken rest (acc ++ [c])

/-- The unit of a rendered line: its last space-separated token. -/
def unitOf (str : String) : String := String.mk (lastToken str.data [])

/-- Models the `oomm` loop of go-humanize: repeatedly divide by 1000 keeping the
last remainder, incrementing the magnitude, breaking once the magnitude reaches
8 (`maxmag = len(sizes)-1`).  Because the magnitude grows by one per iteration,
8 units of fuel make this a faithful, structurally recursive rendering. -/
def oommLoop : Nat → Nat → Nat → Nat → Nat × Nat × Nat
  | 0, n, m, mag => (n, m, mag)
  | fuel + 1, n, m, mag =>
      if 1000 ≤ n then
        if mag + 1 = 8 then (n / 1000, n % 1000, mag + 1)
        else oommLoop fuel (n / 1000) (n % 1000) (mag + 1)
      else (n, m, mag)

/-- Decimal rendering of `%.0f` applied to the exact value `q + m/1000`
(`0 ≤ m < 1000`): round to an integer, ties to even.  Go applies `%.0f` to the
nearest `float64`; on the values any theorem below evaluates this agrees, and no
theorem relies on a tie that is not exactly representable in binary. -/
def fmtF0 (q m : Nat) : String :=
  toString (if 500 < m then q + 1 else if m < 500 then q else if q % 2 = 0 then q else q + 1)

/-- Decimal rendering of `%.1f` applied to the exact value `q + m/1000`, with
the same rounding convention (and caveat) as `fmtF0`. -/
def fmtF1 (q m : Nat) : String :=
  let t := q * 10 + m / 100
  let rem := m % 100
  let t' := if 50 < rem then t + 1 else if rem < 50 then t else if t % 2 = 0 then t else t + 1
  toString (t' / 10) ++ "." ++ toString (t' % 10)

/-- Models `humanize.BigBytes` (external library dustin/go-humanize): values
below 10 print as `"%d B"`; otherwise the magnitude loop with base 1000 picks a
decimal SI suffix, and the mantissa prints with one decimal when below 10. -/
def bigBytes (s : Int) : String :=
  if s < 10 then toString s ++ " B"
  else
    match oommLoop 8 s.toNat 0 0 with
    | (q, m, mag) =>
        (if q < 10 then fmtF1 q m else fmtF0 q m) ++ " " ++ siSizes.getD mag "B"

/-- Renders one stdout line: `fmt.Println()` prints an empty line, and an entry
prints `fmt.Printf("%v: %v\n", fullPath, humanize.BigBytes(big.NewInt(size)))`
(`main.go:141` and `main.go:75`).  The instrumentation `kind` is erased. -/
def renderLine : OutLine → String
  | .blank => ""
  | .entry _ p s => p ++ ": " ++ bigBytes s

mutual

/-- Modelled from the spec sentence for claim C1: the size contribution of one
entry is its file size for regular files (0 when the metadata lookup fails, per
the spec's skip rule), the recursive sum for a directory that is neither
matched by the exclusion pattern nor unreadable, and 0 otherwise. -/
def specEntrySize (v : Visualiser) (dir : String) : FSEntry → Int
  | .file _ info =>
      match info with
      | some sz => sz
      | none => 0
  | .dir name readable entries =>
      if shouldSkipDir v (joinPath dir name) then 0
      else if readable then specListSize v (joinPath dir name) entries else 0
  | .other _ => 0

/-- Modelled from the spec: sum of `specEntrySize` over a listing. -/
def specListSize (v : Visualiser) (dir : String) : List FSEntry → Int
  | [] => 0
  | e :: rest => specEntrySize v dir e + specListSize v dir rest

end

/-- Modelled from the spec: the cumulative size of a directory is the sum of
sizes of all regular files in its subtree reachable without crossing an
excluded or unreadable subdirectory; an unreadable root contributes 0. -/
def specSubtreeSize (v : Visualiser) (dir : String) (readable : Bool)
    (entries : List FSEntry) : Int :=
  if readable then specListSize v dir entries else 0

mutual

/-- Embeds the `switch` of the earlier revision's `getDirSize`
(`src/unnamed/part_000:77-103`): identical to `stepEntry` except that there is
no ignore-regexp test and the threshold is passed as a plain parameter. -/
def stepEntryOld (t : Int) (dir : String) : FSEntry → EntryStep
  | .file name info =>
      match info with
      | none => EntryStep.crash
      | some sz => EntryStep.proceed (joinPath dir name) sz EKind.fileK [] [] false
  | .dir name readable entries =>
      let fullPath := joinPath dir name
      if readable then
        match walkLoopOld t fullPath entries 0 0 false with
        | none => EntryStep.crash
        | some sub =>
            match sub.err with
            | some _ =>
                EntryStep.skipped sub.out
                  (sub.logs ++ [LogEvent.errReadDir dir, LogEvent.warnSkipDir dir])
            | none =>
                EntryStep.proceed fullPath sub.size EKind.dirK sub.out sub.logs
                  (decide (0 < sub.printedFiles))
      else
        EntryStep.proceed fullPath 0 EKind.dirK []
          [LogEvent.errReadDir fullPath, LogEvent.warnSkipDir fullPath] false
  | .other name => EntryStep.proceed (joinPath dir name) 0 EKind.otherK [] [] false

/-- Embeds the `for` loop of the earlier revision's `getDirSize`
(`src/unnamed/part_000:73-124`), identical to `walkLoop` up to the threshold
parameter. -/
def walkLoopOld (t : Int) (dir : String) :
    List FSEntry → Int → Nat → Bool → Option WalkResult
  | [], dirSize, fp, _ => some ⟨dirSize, fp, [], [], none⟩
  | e :: rest, dirSize, fp, closing =>
      match stepEntryOld t dir e with
      | .crash => none
      | .skipped sOut sLogs =>
          (walkLoopOld t dir rest dirSize fp closing).map fun r =>
            { r with out := sOut ++ r.out, logs := sLogs ++ r.logs }
      | .proceed fullPath sz kind sOut sLogs setC =>
          let closing' := closing || setC
          let printedLine : List OutLine :=
            if sz > t then
              (if kind = EKind.fileK ∧ fp = 0 then [OutLine.blank] else []) ++
              [OutLine.entry kind fullPath sz] ++
              (if closing' then [OutLine.blank] else [])
            else []
          let fp' := if sz > t ∧ kind = EKind.fileK then fp + 1 else fp
          (walkLoopOld t dir rest (dirSize + sz) fp' closing').map fun r =>
            { r with out := sOut ++ printedLine ++ r.out, logs := sLogs ++ r.logs }

end

/-- Embeds the earlier revision's `getDirSize` (`src/unnamed/part_000:60-127`). -/
def getDirSizeOld (t : Int) (dir : String) (readable : Bool)
    (entries : List FSEntry) : Option WalkResult :=
  if readable then walkLoopOld t dir entries 0 0 false
  else some ⟨0, 0, [], [LogEvent.errReadDir dir, LogEvent.warnSkipDir dir], none⟩

mutual

/-- Modelled from the spec for claim C3 (step part): identical to `stepEntry`
except that the recursion goes through the claim's walk `walkLoopC3`. -/
def stepEntryC3 (v : Visualiser) (dir : String) : FSEntry → EntryStep
  | .file name info =>
      match info with
      | none => EntryStep.crash
      | some sz => EntryStep.proceed (joinPath dir name) sz EKind.fileK [] [] false
  | .dir name readable entries =>
      let fullPath := joinPath dir name
      if shouldSkipDir v fullPath then
        EntryStep.skipped [] [LogEvent.warnIgnoreDir fullPath]
      else if readable then
        match walkLoopC3 v fullPath entries 0 0 with
        | none => EntryStep.crash
        | some sub =>
            match sub.err with
            | some _ =>
                EntryStep.skipped sub.out
                  (sub.logs ++ [LogEvent.errReadDir dir, LogEvent.warnSkipDir dir])
            | none =>
                EntryStep.proceed fullPath sub.size EKind.dirK sub.out sub.logs
                  (decide (0 < sub.printedFiles))
      else
        EntryStep.proceed fullPath 0 EKind.dirK []
          [LogEvent.errReadDir fullPath, LogEvent.warnSkipDir fullPath] false
  | .other name => EntryStep.proceed (joinPath dir name) 0 EKind.otherK [] [] false

/-- Modelled from the spec sentence behind claim C3: the closing blank line
after a printed entry's line is emitted if and only if that very entry is a
directory whose recursive call reported a positive printed-file count
(`setC`); no closing flag is retained across entries.  Everything else is as in
`walkLoop`. -/
def walkLoopC3 (v : Visualiser) (dir : String) :
    List FSEntry → Int → Nat → Option WalkResult
  | [], dirSize, fp => some ⟨dirSize, fp, [], [], none⟩
  | e :: rest, dirSize, fp =>
      match stepEntryC3 v dir e with
      | .crash => none
      | .skipped sOut sLogs =>
          (walkLoopC3 v dir rest dirSize fp).map fun r =>
            { r with out := sOut ++ r.out, logs := sLogs ++ r.logs }
      | .proceed fullPath sz kind sOut sLogs setC =>
          let printedLine : List OutLine :=
            if sz > v.sizeThreshold then
              (if kind = EKind.fileK ∧ fp = 0 then [OutLine.blank] else []) ++
              [OutLine.entry kind fullPath sz] ++
              (if setC then [OutLine.blank] else [])
            else []
          let fp' := if sz > v.sizeThreshold ∧ kind = EKind.fileK then fp + 1 else fp
          (walkLoopC3 v dir rest (dirSize + sz) fp').map fun r =>
            { r with out := sOut ++ printedLine ++ r.out, logs := sLogs ++ r.logs }

end

/-- Modelled from the spec: `getDirSize` as claim C3 describes it, using the
claim's blank-line rule. -/
def getDirSizeC3 (v : Visualiser) (dir : String) (readable : Bool)
    (entries : List FSEntry) : Option WalkResult :=
  if readable then walkLoopC3 v dir entries 0 0
  else some ⟨0, 0, [], [LogEvent.errReadDir dir, LogEvent.warnSkipDir dir], none⟩

mutual

/-- All regular-file sizes recorded in one entry's subtree are nonnegative
(true of every real file system; `Info().Size()` is a length). -/
def entryNonneg : FSEntry → Bool
  | .file _ info =>
      match info with
      | some sz => decide (0 ≤ sz)
      | none => true
  | .dir _ _ entries => listNonneg entries
  | .other _ => true

/-- All regular-file sizes recorded in a listing's subtrees are nonnegative. -/
def listNonneg : List FSEntry → Bool
  | [] => true
  | e :: rest => entryNonneg e && listNonneg rest

end

/-- Sum of the sizes carried by the regular-file entry lines of an output. -/
def fileLineSum : List OutLine → Int
  | [] => 0
  | OutLine.entry EKind.fileK _ s :: rest => s + fileLineSum rest
  | _ :: rest => fileLineSum rest

/-- The `(path, size)` pairs of all entry lines of an output, in order. -/
def printedEntries : List OutLine → List (String × Int)
  | [] => []
  | OutLine.entry _ p s :: rest => (p, s) :: printedEntries rest
  | OutLine.blank :: rest => printedEntries rest

/-- Sum of the sizes of the distinct printed entries of an output (entries
deduplicated as `(path, size)` pairs). -/
def distinctPrintedSum (out : List OutLine) : Int :=
  (((printedEntries out).dedup).map Prod.snd).sum

/-- A shared concrete configuration: threshold 0, no exclusion pattern. -/
def v0 : Visualiser := ⟨0, none⟩

/-- A shared concrete tree: a subdirectory `d` holding a 5-byte file `x`,
next to a 7-byte file `g`. -/
def tDemo : List FSEntry :=
  [FSEntry.dir "d" true [FSEntry.file "x" (some 5)], FSEntry.file "g" (some 7)]

/-- The stdout of scanning `tDemo` from `/r` with `v0` (checked by `rfl` in the
witnesses below).  Note the trailing blank after the file line `/r/g`. -/
def outDemo : List OutLine :=
  [OutLine.blank, OutLine.entry EKind.fileK "/r/d/x" 5,
   OutLine.entry EKind.dirK "/r/d" 5, OutLine.blank,
   OutLine.blank, OutLine.entry EKind.fileK "/r/g" 7, OutLine.blank]

/-- A concrete tree for the C4 counterexample: one subdirectory holding one
5-byte file. -/
def tC4 : List FSEntry := [FSEntry.dir "d" true [FSEntry.file "f" (some 5)]]

/-- A concrete configuration whose exclusion pattern matches exactly the path
`/r/tmp` (the spec's Scenario D shape). -/
def vIgn : Visualiser := ⟨0, some (fun p => p == "/r/tmp")⟩

/-- The spec's Scenario A configuration: threshold 100 MB, no exclusion. -/
def vM : Visualiser := ⟨100000000, none⟩

/-- Both `return` statements of `getDirSize` return a nil `error`
(`main.go:88` and `main.go:156`), so the loop's result always carries
`err = none`. -/
theorem walkLoop_err (v : Visualiser) (dir : String) :
    ∀ (es : List FSEntry) (ds : Int) (fp : Nat) (c : Bool) (r : WalkResult),
      walkLoop v dir es ds fp c = some r → r.err = none := by
  intro es
  induction es with
  | nil =>
      intro ds fp c r h
      simp only [walkLoop] at h
      injection h with h
      subst h
      rfl
  | cons e rest ih =>
      intro ds fp c r h
      simp only [walkLoop] at h
      cases hs : stepEntry v dir e with
      | crash => simp [hs] at h
      | skipped sOut sLogs =>
          simp only [hs] at h
          rcases Option.map_eq_some'.mp h with ⟨r', hr', hmap⟩
          subst hmap
          exact ih ds fp c r' hr'
      | proceed fullPath sz kind sOut sLogs setC =>
          simp only [hs] at h
          rcases Option.map_eq_some'.mp h with ⟨r', hr', hmap⟩
          subst hmap
          exact ih (ds + sz) _ _ r' hr'

/-- The wrapper inherits the nil returned error. -/
theorem getDirSize_err (v : Visualiser) (dir : String) (readable : Bool)
    (entries : List FSEntry) (r : WalkResult)
    (h : getDirSize v dir readable entries = some r) : r.err = none := by
  cases readable with
  | false =>
      simp only [getDirSize, Bool.false_eq_true, if_false] at h
      injection h with h
      subst h
      rfl
  | true =>
      simp only [getDirSize, if_true] at h
      exact walkLoop_err v dir entries 0 0 false r h

mutual

/-- Size bookkeeping of one loop iteration: an entry that `continue`s was either
an excluded directory or the dead recursive-error branch, and each entry that
reaches the threshold check carries exactly its spec-side size contribution. -/
theorem stepEntry_specSize (v : Visualiser) (dir : String) (e : FSEntry) :
    (∀ sOut sLogs, stepEntry v dir e = EntryStep.skipped sOut sLogs →
       specEntrySize v dir e = 0) ∧
    (∀ fullPath sz kind sOut sLogs setC,
       stepEntry v dir e = EntryStep.proceed fullPath sz kind sOut sLogs setC →
       sz = specEntrySize v dir e) := by
  cases e with
  | file name info =>
      cases info with
      | none =>
          exact ⟨fun _ _ h => by simp [stepEntry] at h,
                 fun _ _ _ _ _ _ h => by simp [stepEntry] at h⟩
      | some sz =>
          refine ⟨fun sOut sLogs h => by simp [stepEntry] at h, ?_⟩
          intro fullPath sz' kind sOut sLogs setC h
          simp only [stepEntry, EntryStep.proceed.injEq] at h
          simp [specEntrySize, ← h.2.1]
  | dir name readable entries =>
      cases hskip : shouldSkipDir v (joinPath dir name) with
      | true =>
          refine ⟨fun sOut sLogs _ => by simp [specEntrySize, hskip], ?_⟩
          intro fullPath sz kind sOut sLogs setC h
          simp [stepEntry, hskip] at h
      | false =>
          cases readable with
          | false =>
              refine ⟨fun sOut sLogs h => by simp [stepEntry, hskip] at h, ?_⟩
              intro fullPath sz kind sOut sLogs setC h
              simp only [stepEntry, hskip, Bool.false_eq_true, if_false,
                EntryStep.proceed.injEq] at h
              simp [specEntrySize, hskip, ← h.2.1]
          | true =>
              refine ⟨?_, ?_⟩ <;>
                [skip; skip] <;>
                first
                | (intro sOut sLogs h
                   simp only [stepEntry, hskip, Bool.false_eq_true, if_false, if_true] at h
                   cases hw : walkLoop v (joinPath dir name) entries 0 0 false with
                   | none => simp [hw] at h
                   | some sub =>
                       have herr := walkLoop_err v (joinPath dir name) entries 0 0 false sub hw
                       simp [hw, herr] at h)
                | (intro fullPath sz kind sOut sLogs setC h
                   simp only [stepEntry, hskip, Bool.false_eq_true, if_false, if_true] at h
                   cases hw : walkLoop v (joinPath dir name) entries 0 0 false with
                   | none => simp [hw] at h
                   | some sub =>
                       have herr := walkLoop_err v (joinPath dir name) entries 0 0 false sub hw
                       simp only [hw, herr, EntryStep.proceed.injEq] at h
                       have hsz := walkLoop_specSize v (joinPath dir name) entries 0 0 false sub hw
                       simp [specEntrySize, hskip, ← h.2.1, hsz])
  | other name =>
      refine ⟨fun sOut sLogs h => by simp [stepEntry] at h, ?_⟩
      intro fullPath sz kind sOut sLogs setC h
      simp only [stepEntry, EntryStep.proceed.injEq] at h
      simp [specEntrySize, ← h.2.1]
termination_by sizeOf e

/-- The running `dirSize` accumulator ends at its initial value plus the
spec-side sum of the remaining entries (`main.go:153`). -/
theorem walkLoop_specSize (v : Visualiser) (dir : String) (es : List FSEntry) :
    ∀ (ds : Int) (fp : Nat) (c : Bool) (r : WalkResult),
      walkLoop v dir es ds fp c = some r →
      r.size = ds + specListSize v dir es := by
  cases es with
  | nil =>
      intro ds fp c r h
      simp only [walkLoop] at h
      injection h with h
      subst h
      simp [specListSize]
  | cons e rest =>
      intro ds fp c r h
      simp only [walkLoop] at h
      cases hs : stepEntry v dir e with
      | crash => simp [hs] at h
      | skipped sOut sLogs =>
          simp only [hs] at h
          rcases Option.map_eq_some'.mp h with ⟨r', hr', hmap⟩
          subst hmap
          have h0 := (stepEntry_specSize v dir e).1 sOut sLogs hs
          have h1 := walkLoop_specSize v dir rest ds fp c r' hr'
          simp only [specListSize, h0]
          simpa using h1
      | proceed fullPath sz kind sOut sLogs setC =>
          simp only [hs] at h
          rcases Option.map_eq_some'.mp h with ⟨r', hr', hmap⟩
          subst hmap
          have h0 := (stepEntry_specSize v dir e).2 fullPath sz kind sOut sLogs setC hs
          have h1 := walkLoop_specSize v dir rest (ds + sz) _ _ r' hr'
          simp only [specListSize, ← h0]
          simp only [h1]
          omega
termination_by sizeOf es

end

/-- C1: whenever `getDirSize` returns, the returned cumulative size equals the
exact spec-side sum of the sizes of all regular files in the subtree reachable
without crossing an excluded or unreadable subdirectory, both of which
contribute zero.  (On trees with a reachable file whose metadata lookup fails,
`getDirSize` does not return at all: see the C2 record.) -/
theorem c1_cumulative_size_matches_spec (v : Visualiser) (dir : String)
    (readable : Bool) (entries : List FSEntry) (r : WalkResult)
    (h : getDirSize v dir readable entries = some r) :
    r.size = specSubtreeSize v dir readable entries := by
  cases readable with
  | false =>
      simp only [getDirSize, Bool.false_eq_true, if_false] at h
      injection h with h
      subst h
      simp [specSubtreeSize]
  | true =>
      simp only [getDirSize, if_true] at h
      have := walkLoop_specSize v dir entries 0 0 false r h
      simpa [specSubtreeSize] using this

/-- Witness for C1: the scan of the concrete tree `tDemo` returns size 12, and
12 is the spec-side sum of its file sizes. -/
theorem c1_cumulative_size_witness :
    (WalkResult.mk 12 1 outDemo [] none).size = specSubtreeSize v0 "/r" true tDemo :=
  c1_cumulative_size_matches_spec v0 "/r" true tDemo ⟨12, 1, outDemo, [], none⟩ rfl

/-- Exhaustive description of what the loop body does with one entry, with the
dead recursive-error branch already discharged by `walkLoop_err`. -/
theorem stepEntry_cases (v : Visualiser) (dir : String) (e : FSEntry) :
    (∃ name, e = FSEntry.file name none ∧ stepEntry v dir e = EntryStep.crash) ∨
    (∃ name sz, e = FSEntry.file name (some sz) ∧
       stepEntry v dir e =
         EntryStep.proceed (joinPath dir name) sz EKind.fileK [] [] false) ∨
    (∃ name readable entries, e = FSEntry.dir name readable entries ∧
       shouldSkipDir v (joinPath dir name) = true ∧
       stepEntry v dir e =
         EntryStep.skipped [] [LogEvent.warnIgnoreDir (joinPath dir name)]) ∨
    (∃ name entries, e = FSEntry.dir name true entries ∧
       shouldSkipDir v (joinPath dir name) = false ∧
       walkLoop v (joinPath dir name) entries 0 0 false = none ∧
       stepEntry v dir e = EntryStep.crash) ∨
    (∃ name entries sub, e = FSEntry.dir name true entries ∧
       shouldSkipDir v (joinPath dir name) = false ∧
       walkLoop v (joinPath dir name) entries 0 0 false = some sub ∧
       stepEntry v dir e =
         EntryStep.proceed (joinPath dir name) sub.size EKind.dirK sub.out sub.logs
           (decide (0 < sub.printedFiles))) ∨
    (∃ name entries, e = FSEntry.dir name false entries ∧
       shouldSkipDir v (joinPath dir name) = false ∧
       stepEntry v dir e =
         EntryStep.proceed (joinPath dir name) 0 EKind.dirK []
           [LogEvent.errReadDir (joinPath dir name),
            LogEvent.warnSkipDir (joinPath dir name)] false) ∨
    (∃ name, e = FSEntry.other name ∧
       stepEntry v dir e =
         EntryStep.proceed (joinPath dir name) 0 EKind.otherK [] [] false) := by
  cases e with
  | file name info =>
      cases info with
      | none => exact Or.inl ⟨name, rfl, rfl⟩
      | some sz => exact Or.inr (Or.inl ⟨name, sz, rfl, rfl⟩)
  | dir name readable entries =>
      cases hskip : shouldSkipDir v (joinPath dir name) with
      | true =>
          refine Or.inr (Or.inr (Or.inl ⟨name, readable, entries, rfl, hskip, ?_⟩))
          simp [stepEntry, hskip]
      | false =>
          cases readable with
          | false =>
              refine Or.inr (Or.inr (Or.inr (Or.inr (Or.inr
                (Or.inl ⟨name, entries, rfl, hskip, ?_⟩)))))
              simp [stepEntry, hskip]
          | true =>
              cases hw : walkLoop v (joinPath dir name) entries 0 0 false with
              | none =>
                  refine Or.inr (Or.inr (Or.inr (Or.inl
                    ⟨name, entries, rfl, hskip, hw, ?_⟩)))
                  simp [stepEntry, hskip, hw]
              | some sub =>
                  have herr := walkLoop_err v (joinPath dir name) entries 0 0 false sub hw
                  refine Or.inr (Or.inr (Or.inr (Or.inr (Or.inl
                    ⟨name, entries, sub, rfl, hskip, hw, ?_⟩))))
                  simp [stepEntry, hskip, hw, herr]
  | other name =>
      exact Or.inr (Or.inr (Or.inr (Or.inr (Or.inr (Or.inr ⟨name, rfl, rfl⟩)))))

/-- The only reachable `continue` that skips an entry is the excluded-directory
one, and it prints nothing: a `skipped` step carries empty output. -/
theorem stepEntry_skipped_out (v : Visualiser) (dir : String) (e : FSEntry)
    (sOut : List OutLine) (sLogs : List LogEvent)
    (h : stepEntry v dir e = EntryStep.skipped sOut sLogs) : sOut = [] := by
  rcases stepEntry_cases v dir e with
    ⟨name, he, hc⟩ | ⟨name, szf, he, hc⟩ | ⟨name, rd, es, he, hskip, hc⟩ |
    ⟨name, es, he, hskip, hw, hc⟩ | ⟨name, es, sub, he, hskip, hw, hc⟩ |
    ⟨name, es, he, hskip, hc⟩ | ⟨name, he, hc⟩ <;>
    (rw [hc] at h
     first
      | (injection h with h1 h2; exact h1.symm)
      | simp at h)

mutual

/-- Every entry line already emitted by the time an entry reaches the threshold
check carries a size strictly above the threshold. -/
theorem stepEntry_outGT (v : Visualiser) (dir : String) (e : FSEntry) :
    ∀ fullPath sz kind sOut sLogs setC,
      stepEntry v dir e = EntryStep.proceed fullPath sz kind sOut sLogs setC →
      ∀ k p s, OutLine.entry k p s ∈ sOut → v.sizeThreshold < s := by
  intro fullPath sz kind sOut sLogs setC hstep k p s hmem
  rcases stepEntry_cases v dir e with
    ⟨name, he, hc⟩ | ⟨name, szf, he, hc⟩ | ⟨name, rd, es, he, hskip, hc⟩ |
    ⟨name, es, he, hskip, hw, hc⟩ | ⟨name, es, sub, he, hskip, hw, hc⟩ |
    ⟨name, es, he, hskip, hc⟩ | ⟨name, he, hc⟩
  · rw [hc] at hstep; simp at hstep
  · rw [hc] at hstep
    injection hstep with h1 h2 h3 h4 h5 h6
    rw [← h4] at hmem
    simp at hmem
  · rw [hc] at hstep; simp at hstep
  · rw [hc] at hstep; simp at hstep
  · subst he
    rw [hc] at hstep
    injection hstep with h1 h2 h3 h4 h5 h6
    rw [← h4] at hmem
    exact walkLoop_outGT v (joinPath dir name) es 0 0 false sub hw k p s hmem
  · rw [hc] at hstep
    injection hstep with h1 h2 h3 h4 h5 h6
    rw [← h4] at hmem
    simp at hmem
  · rw [hc] at hstep
    injection hstep with h1 h2 h3 h4 h5 h6
    rw [← h4] at hmem
    simp at hmem
termination_by sizeOf e

/-- Every entry line printed by the loop carries a size strictly above the
threshold (`main.go:135`). -/
theorem walkLoop_outGT (v : Visualiser) (dir : String) (es : List FSEntry) :
    ∀ (ds : Int) (fp : Nat) (c : Bool) (r : WalkResult),
      walkLoop v dir es ds fp c = some r →
      ∀ k p s, OutLine.entry k p s ∈ r.out → v.sizeThreshold < s := by
  cases es with
  | nil =>
      intro ds fp c r h k p s hmem
      simp only [walkLoop] at h
      injection h with h
      subst h
      simp at hmem
  | cons e rest =>
      intro ds fp c r h k p s hmem
      simp only [walkLoop] at h
      cases hs : stepEntry v dir e with
      | crash => simp [hs] at h
      | skipped sOut sLogs =>
          simp only [hs] at h
          rcases Option.map_eq_some'.mp h with ⟨r', hr', hmap⟩
          subst hmap
          have hnil := stepEntry_skipped_out v dir e sOut sLogs hs
          subst hnil
          simp only [List.nil_append] at hmem
          exact walkLoop_outGT v dir rest ds fp c r' hr' k p s hmem
      | proceed fullPath sz kind sOut sLogs setC =>
          simp only [hs] at h
          rcases Option.map_eq_some'.mp h with ⟨r', hr', hmap⟩
          subst hmap
          simp only [List.mem_append] at hmem
          rcases hmem with (hmem | hmem) | hmem
          · exact stepEntry_outGT v dir e fullPath sz kind sOut sLogs setC hs k p s hmem
          · by_cases hpr : sz > v.sizeThreshold
            · simp only [hpr, if_true, List.mem_append] at hmem
              rcases hmem with (hmem | hmem) | hmem
              · rcases Decidable.em (kind = EKind.fileK ∧ fp = 0) with hd | hd <;>
                  simp [hd] at hmem
              · simp only [List.mem_singleton] at hmem
                cases hmem
                exact hpr
              · cases hc : (c || setC) <;> simp [hc] at hmem
            · simp [hpr] at hmem
          · exact walkLoop_outGT v dir rest (ds + sz) _ _ r' hr' k p s hmem
termination_by sizeOf es

end

/-- Wrapper form of `walkLoop_outGT` for `getDirSize`. -/
theorem getDirSize_outGT (v : Visualiser) (dir : String) (readable : Bool)
    (entries : List FSEntry) (r : WalkResult)
    (h : getDirSize v dir readable entries = some r) :
    ∀ k p s, OutLine.entry k p s ∈ r.out → v.sizeThreshold < s := by
  cases readable with
  | false =>
      simp only [getDirSize, Bool.false_eq_true, if_false] at h
      injection h with h
      subst h
      intro k p s hmem
      simp at hmem
  | true =>
      simp only [getDirSize, if_true] at h
      exact walkLoop_outGT v dir entries 0 0 false r h

/-- C6: the threshold comparison is strict for every file, every directory,
and the root: every entry line printed anywhere during `visualise` carries a
size strictly greater than the threshold, so a size equal to the threshold is
never printed. -/
theorem c6_strict_threshold (v : Visualiser) (dir : String) (readable : Bool)
    (entries : List FSEntry) (res : List OutLine × List LogEvent)
    (h : visualise v dir readable entries = some res)
    (k : EKind) (p : String) (s : Int)
    (hmem : OutLine.entry k p s ∈ res.1) : v.sizeThreshold < s := by
  cases hg : getDirSize v dir readable entries with
  | none => simp [visualise, hg] at h
  | some r =>
      have herr := getDirSize_err v dir readable entries r hg
      simp only [visualise, hg, herr] at h
      by_cases hpr : r.size > v.sizeThreshold
      · simp only [hpr, if_true, Option.some.injEq] at h
        subst h
        simp only [List.mem_append, List.mem_cons, List.mem_singleton,
          List.not_mem_nil, or_false] at hmem
        rcases hmem with hmem | hmem | hmem
        · exact getDirSize_outGT v dir readable entries r hg k p s hmem
        · cases hmem
          exact hpr
        · simp at hmem
      · simp only [hpr, if_false, Option.some.injEq] at h
        subst h
        exact getDirSize_outGT v dir readable entries r hg k p s hmem

/-- Witness for C6 at the concrete tree `tDemo` and threshold 0. -/
theorem c6_strict_threshold_witness : v0.sizeThreshold < (5 : Int) :=
  c6_strict_threshold v0 "/r" true tDemo
    (outDemo ++ [OutLine.entry EKind.dirK "/r" 12, OutLine.blank], []) rfl
    EKind.fileK "/r/d/x" 5 (by decide)

/-- Auxiliary: `fileLineSum` distributes over concatenation. -/
theorem fileLineSum_append : ∀ (a b : List OutLine),
    fileLineSum (a ++ b) = fileLineSum a + fileLineSum b := by
  intro a b
  induction a with
  | nil => simp [fileLineSum]
  | cons x rest ih =>
      cases x with
      | blank => simpa [fileLineSum] using ih
      | entry k p s => cases k <;> (simp [fileLineSum, ih]; try omega)

/-- Auxiliary: conditional blank lines contribute nothing to the file-line sum. -/
theorem fileLineSum_blankIf (P : Prop) [Decidable P] :
    fileLineSum (if P then [OutLine.blank] else []) = 0 := by
  rcases Decidable.em P with hp | hp <;> simp [hp, fileLineSum]

/-- Auxiliary: a single entry line contributes its size to the file-line sum
exactly when it is a regular-file line. -/
theorem fileLineSum_single (kind : EKind) (p : String) (sz : Int) :
    fileLineSum [OutLine.entry kind p sz] = if kind = EKind.fileK then sz else 0 := by
  cases kind <;> simp [fileLineSum]

mutual

/-- With nonnegative file sizes, each entry reaching the threshold check has a
nonnegative size, the file lines already printed below it sum to at most its
size, and a regular file has printed nothing below itself. -/
theorem stepEntry_fileSum (v : Visualiser) (dir : String) (e : FSEntry) :
    ∀ fullPath sz kind sOut sLogs setC,
      stepEntry v dir e = EntryStep.proceed fullPath sz kind sOut sLogs setC →
      entryNonneg e = true →
      0 ≤ sz ∧ fileLineSum sOut ≤ sz ∧ (kind = EKind.fileK → sOut = []) := by
  intro fullPath sz kind sOut sLogs setC hstep hnn
  rcases stepEntry_cases v dir e with
    ⟨name, he, hc⟩ | ⟨name, szf, he, hc⟩ | ⟨name, rd, es, he, hskip, hc⟩ |
    ⟨name, es, he, hskip, hw, hc⟩ | ⟨name, es, sub, he, hskip, hw, hc⟩ |
    ⟨name, es, he, hskip, hc⟩ | ⟨name, he, hc⟩
  · rw [hc] at hstep; simp at hstep
  · rw [hc] at hstep
    injection hstep with h1 h2 h3 h4 h5 h6
    subst he
    simp only [entryNonneg, decide_eq_true_eq] at hnn
    refine ⟨h2 ▸ hnn, ?_, fun _ => h4.symm⟩
    rw [← h4]
    simp only [fileLineSum]
    exact h2 ▸ hnn
  · rw [hc] at hstep; simp at hstep
  · rw [hc] at hstep; simp at hstep
  · subst he
    rw [hc] at hstep
    injection hstep with h1 h2 h3 h4 h5 h6
    simp only [entryNonneg] at hnn
    obtain ⟨ih1, ih2⟩ := walkLoop_fileSum v (joinPath dir name) es 0 0 false sub hnn hw
    refine ⟨h2 ▸ (by omega), ?_, ?_⟩
    · rw [← h4, ← h2]; omega
    · intro hk
      rw [← h3] at hk
      simp at hk
  · rw [hc] at hstep
    injection hstep with h1 h2 h3 h4 h5 h6
    refine ⟨h2 ▸ le_refl 0, ?_, fun _ => h4.symm⟩
    rw [← h4, ← h2]
    simp [fileLineSum]
  · rw [hc] at hstep
    injection hstep with h1 h2 h3 h4 h5 h6
    refine ⟨h2 ▸ le_refl 0, ?_, fun _ => h4.symm⟩
    rw [← h4, ← h2]
    simp [fileLineSum]
termination_by sizeOf e

/-- With nonnegative file sizes, the loop's accumulated size dominates both its
initial value and the initial value plus the sum of all regular-file lines the
loop prints (at this level and below): each file's size enters the accumulator
exactly once (`main.go:153`). -/
theorem walkLoop_fileSum (v : Visualiser) (dir : String) (es : List FSEntry) :
    ∀ (ds : Int) (fp : Nat) (c : Bool) (r : WalkResult),
      listNonneg es = true → walkLoop v dir es ds fp c = some r →
      fileLineSum r.out + ds ≤ r.size ∧ ds ≤ r.size := by
  cases es with
  | nil =>
      intro ds fp c r hnn h
      simp only [walkLoop] at h
      injection h with h
      subst h
      simp [fileLineSum]
  | cons e rest =>
      intro ds fp c r hnn h
      simp only [listNonneg, Bool.and_eq_true] at hnn
      simp only [walkLoop] at h
      cases hs : stepEntry v dir e with
      | crash => simp [hs] at h
      | skipped sOut sLogs =>
          simp only [hs] at h
          rcases Option.map_eq_some'.mp h with ⟨r', hr', hmap⟩
          subst hmap
          have hnil := stepEntry_skipped_out v dir e sOut sLogs hs
          subst hnil
          obtain ⟨ih1, ih2⟩ := walkLoop_fileSum v dir rest ds fp c r' hnn.2 hr'
          constructor
          · simpa [fileLineSum] using ih1
          · simpa using ih2
      | proceed fullPath sz kind sOut sLogs setC =>
          simp only [hs] at h
          rcases Option.map_eq_some'.mp h with ⟨r', hr', hmap⟩
          subst hmap
          dsimp only
          obtain ⟨hsz0, hsub, hreg⟩ :=
            stepEntry_fileSum v dir e fullPath sz kind sOut sLogs setC hs hnn.1
          obtain ⟨ih1, ih2⟩ := walkLoop_fileSum v dir rest (ds + sz) _ _ r' hnn.2 hr'
          refine ⟨?_, by omega⟩
          by_cases hpr : sz > v.sizeThreshold
          · simp only [hpr, if_true, fileLineSum_append, fileLineSum_blankIf,
              fileLineSum_single]
            by_cases hk : kind = EKind.fileK
            · have hso := hreg hk
              subst hso
              simp only [hk, if_true, fileLineSum]
              omega
            · simp only [hk, if_false]
              omega
          · simp only [hpr, if_false, fileLineSum_append, fileLineSum]
            omega
termination_by sizeOf es

end

/-- C4 (amended): with nonnegative file sizes, the sum of the sizes of all
regular-file entry lines printed during the scan never exceeds the cumulative
size computed for the root.  (For printed directory lines no such bound holds:
a printed directory's size already contains its printed descendants, see the
counterexample.) -/
theorem c4_file_sum_bound (v : Visualiser) (dir : String) (readable : Bool)
    (entries : List FSEntry) (r : WalkResult)
    (hnn : listNonneg entries = true)
    (h : getDirSize v dir readable entries = some r) :
    fileLineSum r.out ≤ r.size := by
  cases readable with
  | false =>
      simp only [getDirSize, Bool.false_eq_true, if_false] at h
      injection h with h
      subst h
      simp [fileLineSum]
  | true =>
      simp only [getDirSize, if_true] at h
      have := (walkLoop_fileSum v dir entries 0 0 false r hnn h).1
      omega

/-- Witness for C4's amended bound at the concrete tree `tDemo`. -/
theorem c4_file_sum_witness :
    fileLineSum outDemo ≤ (WalkResult.mk 12 1 outDemo [] none).size :=
  c4_file_sum_bound v0 "/r" true tDemo ⟨12, 1, outDemo, [], none⟩ (by decide) rfl

/-- Counterexample to C4 as stated: scanning `tC4` with threshold 0 prints the
file (5 B), its parent directory (5 B) and the root (5 B) — three distinct
entries summing to 15 — while the root's cumulative size is 5. -/
theorem c4_distinct_sum_counterexample :
    visualise v0 "/r" true tC4 =
      some ([OutLine.blank, OutLine.entry EKind.fileK "/r/d/f" 5,
             OutLine.entry EKind.dirK "/r/d" 5, OutLine.blank,
             OutLine.entry EKind.dirK "/r" 5, OutLine.blank], []) ∧
    getDirSize v0 "/r" true tC4 =
      some ⟨5, 0, [OutLine.blank, OutLine.entry EKind.fileK "/r/d/f" 5,
                   OutLine.entry EKind.dirK "/r/d" 5, OutLine.blank], [], none⟩ ∧
    distinctPrintedSum
      [OutLine.blank, OutLine.entry EKind.fileK "/r/d/f" 5,
       OutLine.entry EKind.dirK "/r/d" 5, OutLine.blank,
       OutLine.entry EKind.dirK "/r" 5, OutLine.blank] = 15 ∧
    ¬ ((15 : Int) ≤ 5) :=
  ⟨rfl, rfl, by decide, by decide⟩

/-- C7: a directory entry whose full joined path matches the exclusion pattern
is skipped entirely: only the warning is logged, no line is printed for it or
any descendant, the parent's accumulator is unchanged (zero contribution), and
the result does not depend on the directory's readability or contents — the
right-hand sides below never mention `readable` or `entries`, so the directory
is not traversed. -/
theorem c7_excluded_dir_skipped (v : Visualiser) (dir name : String)
    (readable : Bool) (entries rest : List FSEntry)
    (ds : Int) (fp : Nat) (closing : Bool)
    (hskip : shouldSkipDir v (joinPath dir name) = true) :
    stepEntry v dir (FSEntry.dir name readable entries) =
      EntryStep.skipped [] [LogEvent.warnIgnoreDir (joinPath dir name)] ∧
    walkLoop v dir (FSEntry.dir name readable entries :: rest) ds fp closing =
      (walkLoop v dir rest ds fp closing).map
        (fun r => { r with
          logs := LogEvent.warnIgnoreDir (joinPath dir name) :: r.logs }) := by
  have h1 : stepEntry v dir (FSEntry.dir name readable entries) =
      EntryStep.skipped [] [LogEvent.warnIgnoreDir (joinPath dir name)] := by
    simp [stepEntry, hskip]
  refine ⟨h1, ?_⟩
  simp only [walkLoop, h1]
  cases walkLoop v dir rest ds fp closing with
  | none => rfl
  | some r => simp

/-- Witness for C7: with the `/r/tmp` pattern, a `tmp` directory holding a
500-byte file is skipped with a warning and contributes nothing. -/
theorem c7_excluded_dir_witness :
    stepEntry vIgn "/r" (FSEntry.dir "tmp" true [FSEntry.file "big" (some 500)]) =
      EntryStep.skipped [] [LogEvent.warnIgnoreDir (joinPath "/r" "tmp")] ∧
    walkLoop vIgn "/r"
        (FSEntry.dir "tmp" true [FSEntry.file "big" (some 500)] :: []) 0 0 false =
      (walkLoop vIgn "/r" [] 0 0 false).map
        (fun r => { r with
          logs := LogEvent.warnIgnoreDir (joinPath "/r" "tmp") :: r.logs }) :=
  c7_excluded_dir_skipped vIgn "/r" "tmp" true [FSEntry.file "big" (some 500)] []
    0 0 false rfl

/-- Counterexample to C3 as stated: on the tree `tDemo` the real walk emits a
closing blank line after the printed line of the regular file `/r/g` (because
the `shouldPrintAClosingNewLine` flag set by the earlier subdirectory `/r/d` is
never reset), whereas the walk that follows the claim's rule — closing blank
exactly after a printed directory whose recursive call printed something —
emits none there. -/
theorem c3_closing_blank_counterexample :
    getDirSize v0 "/r" true tDemo = some ⟨12, 1, outDemo, [], none⟩ ∧
    getDirSizeC3 v0 "/r" true tDemo =
      some ⟨12, 1,
        [OutLine.blank, OutLine.entry EKind.fileK "/r/d/x" 5,
         OutLine.entry EKind.dirK "/r/d" 5, OutLine.blank,
         OutLine.blank, OutLine.entry EKind.fileK "/r/g" 7], [], none⟩ ∧
    outDemo ≠
      [OutLine.blank, OutLine.entry EKind.fileK "/r/d/x" 5,
       OutLine.entry EKind.dirK "/r/d" 5, OutLine.blank,
       OutLine.blank, OutLine.entry EKind.fileK "/r/g" 7] :=
  ⟨rfl, rfl, by decide⟩

/-- C3 (amended): after a printed entry's line, a blank line is emitted exactly
when the level's sticky closing flag is set at that point, i.e. when this entry
or some earlier directory entry at the same level reported a positive
printed-file count; the flag is never reset within a level, so printed regular
files that follow such a directory are also trailed by a blank line.  The
second conjunct pins down when an entry sets the flag: precisely a non-excluded
readable directory whose recursive walk printed at least one file. -/
theorem c3_closing_blank_amended (v : Visualiser) (dir : String) (e : FSEntry)
    (rest : List FSEntry) (ds : Int) (fp : Nat) (closing : Bool)
    (fullPath : String) (sz : Int) (kind : EKind) (sOut : List OutLine)
    (sLogs : List LogEvent) (setC : Bool)
    (hstep : stepEntry v dir e = EntryStep.proceed fullPath sz kind sOut sLogs setC)
    (hpr : sz > v.sizeThreshold) :
    (walkLoop v dir (e :: rest) ds fp closing =
      (walkLoop v dir rest (ds + sz)
          (if kind = EKind.fileK then fp + 1 else fp) (closing || setC)).map
        (fun r => { r with
          out := sOut ++
            ((if kind = EKind.fileK ∧ fp = 0 then [OutLine.blank] else []) ++
             [OutLine.entry kind fullPath sz] ++
             (if (closing || setC) = true then [OutLine.blank] else [])) ++ r.out,
          logs := sLogs ++ r.logs })) ∧
    (setC = true → ∃ name entries sub,
        e = FSEntry.dir name true entries ∧
        shouldSkipDir v (joinPath dir name) = false ∧
        walkLoop v (joinPath dir name) entries 0 0 false = some sub ∧
        0 < sub.printedFiles ∧ sz = sub.size ∧ sOut = sub.out) := by
  constructor
  · simp only [walkLoop, hstep, hpr, if_true, true_and]
  · intro hsetC
    rcases stepEntry_cases v dir e with
      ⟨name, he, hc⟩ | ⟨name, szf, he, hc⟩ | ⟨name, rd, es, he, hskip, hc⟩ |
      ⟨name, es, he, hskip, hw, hc⟩ | ⟨name, es, sub, he, hskip, hw, hc⟩ |
      ⟨name, es, he, hskip, hc⟩ | ⟨name, he, hc⟩ <;>
      rw [hc] at hstep
    · simp at hstep
    · injection hstep with h1 h2 h3 h4 h5 h6
      rw [← h6] at hsetC
      cases hsetC
    · simp at hstep
    · simp at hstep
    · injection hstep with h1 h2 h3 h4 h5 h6
      refine ⟨name, es, sub, he, hskip, hw, ?_, h2.symm, h4.symm⟩
      rw [← h6] at hsetC
      exact of_decide_eq_true hsetC
    · injection hstep with h1 h2 h3 h4 h5 h6
      rw [← h6] at hsetC
      cases hsetC
    · injection hstep with h1 h2 h3 h4 h5 h6
      rw [← h6] at hsetC
      cases hsetC

/-- Witness for the amended C3 rule: in a level whose closing flag is already
set, a printed 7-byte regular file is followed by a closing blank line. -/
theorem c3_closing_blank_witness :
    walkLoop v0 "/r" [FSEntry.file "g" (some 7)] 5 0 true =
      (walkLoop v0 "/r" [] (5 + 7)
          (if EKind.fileK = EKind.fileK then 0 + 1 else 0) (true || false)).map
        (fun r => { r with
          out := [] ++
            ((if EKind.fileK = EKind.fileK ∧ 0 = 0 then [OutLine.blank] else []) ++
             [OutLine.entry EKind.fileK "/r/g" 7] ++
             (if (true || false) = true then [OutLine.blank] else [])) ++ r.out,
          logs := [] ++ r.logs }) :=
  (c3_closing_blank_amended v0 "/r" (FSEntry.file "g" (some 7)) [] 5 0 true
    "/r/g" 7 EKind.fileK [] [] false rfl (by decide)).1

mutual

/-- The step of one entry depends on the configuration only through the
threshold value and the behaviour of the exclusion matcher. -/
theorem stepEntry_congr (v1 v2 : Visualiser)
    (ht : v1.sizeThreshold = v2.sizeThreshold)
    (hs : ∀ p, shouldSkipDir v1 p = shouldSkipDir v2 p)
    (dir : String) (e : FSEntry) :
    stepEntry v1 dir e = stepEntry v2 dir e := by
  cases e with
  | file name info => cases info <;> rfl
  | dir name readable entries =>
      have hw := walkLoop_congr v1 v2 ht hs (joinPath dir name) entries
      simp only [stepEntry, hs (joinPath dir name), hw 0 0 false]
  | other name => rfl
termination_by sizeOf e

/-- The loop depends on the configuration only through the threshold value and
the behaviour of the exclusion matcher. -/
theorem walkLoop_congr (v1 v2 : Visualiser)
    (ht : v1.sizeThreshold = v2.sizeThreshold)
    (hs : ∀ p, shouldSkipDir v1 p = shouldSkipDir v2 p)
    (dir : String) (es : List FSEntry) :
    ∀ (ds : Int) (fp : Nat) (c : Bool),
      walkLoop v1 dir es ds fp c = walkLoop v2 dir es ds fp c := by
  cases es with
  | nil => intro ds fp c; rfl
  | cons e rest =>
      intro ds fp c
      have hse := stepEntry_congr v1 v2 ht hs dir e
      have hr := walkLoop_congr v1 v2 ht hs dir rest
      simp only [walkLoop, hse]
      cases stepEntry v2 dir e with
      | crash => rfl
      | skipped sOut sLogs =>
          dsimp only
          rw [hr]
      | proceed fullPath sz kind sOut sLogs setC =>
          dsimp only
          simp only [ht, hr]
termination_by sizeOf es

end

/-- C9: the scan is deterministic in the configuration and the tree: any two
runs of `visualise` over the same (unchanged) tree with configurations that
agree on the threshold and on the exclusion matcher's verdicts produce
identical stdout output, line for line including blank lines (and identical
diagnostics). -/
theorem c9_deterministic_output (v1 v2 : Visualiser) (dir : String)
    (readable : Bool) (entries : List FSEntry)
    (ht : v1.sizeThreshold = v2.sizeThreshold)
    (hs : ∀ p, shouldSkipDir v1 p = shouldSkipDir v2 p) :
    visualise v1 dir readable entries = visualise v2 dir readable entries := by
  have hg : getDirSize v1 dir readable entries = getDirSize v2 dir readable entries := by
    cases readable with
    | false => rfl
    | true =>
        simp only [getDirSize, if_true]
        exact walkLoop_congr v1 v2 ht hs dir entries 0 0 false
  simp only [visualise, hg, ht]

/-- Witness for C9: two distinct configuration objects with the same threshold
and the same (vacuous) matcher behaviour scan `tDemo` identically. -/
theorem c9_deterministic_witness :
    visualise v0 "/r" true tDemo =
      visualise ⟨0, some fun _ => false⟩ "/r" true tDemo :=
  c9_deterministic_output v0 ⟨0, some fun _ => false⟩ "/r" true tDemo
    rfl (fun _ => rfl)

mutual

/-- With no exclusion pattern, the current step function agrees with the
earlier revision's step function. -/
theorem stepEntry_old_eq (t : Int) (dir : String) (e : FSEntry) :
    stepEntry ⟨t, none⟩ dir e = stepEntryOld t dir e := by
  cases e with
  | file name info => cases info <;> rfl
  | dir name readable entries =>
      have hw := walkLoop_old_eq t (joinPath dir name) entries
      simp only [stepEntry, stepEntryOld, shouldSkipDir, Bool.false_eq_true,
        if_false, hw 0 0 false]
  | other name => rfl
termination_by sizeOf e

/-- With no exclusion pattern, the current loop agrees with the earlier
revision's loop. -/
theorem walkLoop_old_eq (t : Int) (dir : String) (es : List FSEntry) :
    ∀ (ds : Int) (fp : Nat) (c : Bool),
      walkLoop ⟨t, none⟩ dir es ds fp c = walkLoopOld t dir es ds fp c := by
  cases es with
  | nil => intro ds fp c; rfl
  | cons e rest =>
      intro ds fp c
      have hse := stepEntry_old_eq t dir e
      have hr := walkLoop_old_eq t dir rest
      simp only [walkLoop, walkLoopOld, hse]
      cases stepEntryOld t dir e with
      | crash => rfl
      | skipped sOut sLogs =>
          dsimp only
          rw [hr]
      | proceed fullPath sz kind sOut sLogs setC =>
          dsimp only
          simp only [hr]
termination_by sizeOf es

end

/-- C10: with no exclusion pattern configured (`ignoreRegexp` nil), the current
`getDirSize` returns the same `(size, printedFileCount)` pair, the same stdout
lines and the same log lines as the earlier revision's `getDirSize`, on every
tree and threshold. -/
theorem c10_old_new_equiv (t : Int) (dir : String) (readable : Bool)
    (entries : List FSEntry) :
    getDirSize ⟨t, none⟩ dir readable entries = getDirSizeOld t dir readable entries := by
  cases readable with
  | false => rfl
  | true =>
      simp only [getDirSize, getDirSizeOld, if_true]
      exact walkLoop_old_eq t dir entries 0 0 false

/-- C2 (code bug): a regular-file entry whose metadata lookup fails does not
produce a logged warning and a skipped entry — it crashes the walk, because
`entrySize = info.Size()` (`main.go:102`) dereferences the nil `FileInfo`
before the `err != nil` check (`main.go:104`) can run.  The claim matches the
evident intent of the dead handler at `main.go:104-109`. -/
theorem c2_info_failure_crash :
    getDirSize v0 "/r" true [FSEntry.file "f" none] = none := rfl

/-- C8 (code bug): the scan is not total: a metadata failure anywhere in the
tree aborts the whole of `visualise` (first conjunct).  The listing-failure
half of the claim does hold: an unreadable directory is logged and yields
`(0, 0, nil)` (second conjunct). -/
theorem c8_scan_abort :
    visualise v0 "/r" true
      [FSEntry.file "ok" (some 5),
       FSEntry.dir "d" true [FSEntry.file "bad" none]] = none ∧
    getDirSize v0 "/unreadable" false [] =
      some ⟨0, 0, [],
        [LogEvent.errReadDir "/unreadable", LogEvent.warnSkipDir "/unreadable"],
        none⟩ :=
  ⟨rfl, rfl⟩

/-- The magnitude counter of the division loop grows by at most one per unit of
fuel. -/
theorem oommLoop_mag_le : ∀ (fuel n m mag : Nat),
    (oommLoop fuel n m mag).2.2 ≤ mag + fuel := by
  intro fuel
  induction fuel with
  | zero => intro n m mag; simp [oommLoop]
  | succ f ih =>
      intro n m mag
      simp only [oommLoop]
      by_cases h1 : 1000 ≤ n
      · by_cases h2 : mag + 1 = 8
        · simp only [h1, if_true, h2, if_true]
          omega
        · simp only [h1, if_true, h2, if_false]
          have := ih (n / 1000) (n % 1000) (mag + 1)
          omega
      · simp only [h1, if_false]
        omega

/-- The selected unit suffix is always one of the SI suffixes. -/
theorem siSizes_getD_mem (mag : Nat) : siSizes.getD mag "B" ∈ siSizes := by
  rcases Nat.lt_or_ge mag 9 with h | h
  · interval_cases mag <;> decide
  · have hd : siSizes.getD mag "B" = "B" := by
      apply List.getD_eq_default
      simpa [siSizes] using h
    rw [hd]
    decide

/-- Every rendering produced by the `humanize.BigBytes` model is a mantissa,
one space, and a decimal SI unit suffix. -/
theorem bigBytes_shape (s : Int) :
    ∃ mant u, bigBytes s = mant ++ " " ++ u ∧ u ∈ siSizes := by
  by_cases h : s < 10
  · refine ⟨toString s, "B", ?_, by decide⟩
    simp only [bigBytes, h, if_true]
    rw [String.append_assoc]
    congr 1
  · rcases hq : oommLoop 8 s.toNat 0 0 with ⟨q, m, mag⟩
    refine ⟨if q < 10 then fmtF1 q m else fmtF0 q m, siSizes.getD mag "B", ?_,
      siSizes_getD_mem mag⟩
    simp only [bigBytes, h, if_false, hq]

/-- C5 (amended): every stdout line of a scan is either a blank line or of the
form `"<path>: <size>"` with `<size>` produced by the `humanize.BigBytes`
model: a mantissa followed by a decimal SI byte unit (`B`, `kB`, `MB`, `GB`,
...), not a binary IEC unit. -/
theorem c5_output_format (v : Visualiser) (dir : String) (readable : Bool)
    (entries : List FSEntry) (res : List OutLine × List LogEvent)
    (h : visualise v dir readable entries = some res)
    (line : OutLine) (hmem : line ∈ res.1) :
    renderLine line = "" ∨
    ∃ k p s mant u, line = OutLine.entry k p s ∧
      renderLine line = p ++ ": " ++ (mant ++ " " ++ u) ∧
      bigBytes s = mant ++ " " ++ u ∧ u ∈ siSizes := by
  cases line with
  | blank => exact Or.inl rfl
  | entry k p s =>
      obtain ⟨mant, u, hb, hu⟩ := bigBytes_shape s
      refine Or.inr ⟨k, p, s, mant, u, rfl, ?_, hb, hu⟩
      simp only [renderLine, hb]

/-- Witness for C5's amended form at a line actually printed while scanning
`tDemo`. -/
theorem c5_output_format_witness :
    renderLine (OutLine.entry EKind.fileK "/r/d/x" 5) = "" ∨
    ∃ k p s mant u,
      (OutLine.entry EKind.fileK "/r/d/x" 5 : OutLine) = OutLine.entry k p s ∧
      renderLine (OutLine.entry EKind.fileK "/r/d/x" 5) =
        p ++ ": " ++ (mant ++ " " ++ u) ∧
      bigBytes s = mant ++ " " ++ u ∧ u ∈ siSizes :=
  c5_output_format v0 "/r" true tDemo
    (outDemo ++ [OutLine.entry EKind.dirK "/r" 12, OutLine.blank], []) rfl
    (OutLine.entry EKind.fileK "/r/d/x" 5) (by decide)

/-- Counterexample to C5 as stated: a 150000000-byte file prints as
`"/r/f: 150 MB"`: its unit token is the decimal SI unit `MB` of
`humanize.BigBytes`, which is none of the binary-byte units the claim names
(`B`, `KiB`, `MiB`, `GiB`, ...). -/
theorem c5_units_counterexample :
    getDirSize vM "/r" true [FSEntry.file "f" (some 150000000)] =
      some ⟨150000000, 1,
        [OutLine.blank, OutLine.entry EKind.fileK "/r/f" 150000000], [], none⟩ ∧
    renderLine (OutLine.entry EKind.fileK "/r/f" 150000000) = "/r/f: 150 MB" ∧
    unitOf "/r/f: 150 MB" = "MB" ∧ "MB" ∉ iecUnits :=
  ⟨rfl, rfl, rfl, by decide⟩
